import Mathlib

/-!
# Todo-list component (`src/App.js`)

A shallow embedding of the `App` component: its state hooks, the two effects
(load after 800ms, save on every change of `todos`), the three mutating
handlers, the derived view `filteredTodos` and the counters, together with the
platform functions the component calls (`String.prototype.trim`,
`JSON.stringify`, `JSON.parse`, the `localStorage` item `"todos"`).

JavaScript strings are modelled as their sequence of UTF-16 code units.
-/

namespace TodoList

/-! ## JavaScript strings -/

/-- A JavaScript string, as the list of its UTF-16 code units. -/
abbrev JsString := List Nat

/-- UTF-16 code units of one Unicode scalar value. -/
def charUnits (c : Char) : List Nat :=
  if c.toNat < 65536 then [c.toNat]
  else [55296 + (c.toNat - 65536) / 1024, 56320 + (c.toNat - 65536) % 1024]

/-- The JavaScript string denoted by a string literal. -/
def utf16 (s : String) : JsString :=
  s.data.flatMap charUnits

/-- WhiteSpace and LineTerminator code points of ECMAScript, the characters
`String.prototype.trim` strips: TAB, LF, VT, FF, CR, SP, NBSP, U+1680,
U+2000..U+200A, LS, PS, U+202F, U+205F, U+3000 and U+FEFF. -/
def isWhiteSpace (u : Nat) : Bool :=
  u == 9 || u == 10 || u == 11 || u == 12 || u == 13 || u == 32 || u == 160 ||
  u == 5760 || (8192 ≤ u && u ≤ 8202) || u == 8232 || u == 8233 || u == 8239 ||
  u == 8287 || u == 12288 || u == 65279

/-- `String.prototype.trim`: strip leading and trailing white space. -/
def trim (s : JsString) : JsString :=
  ((s.dropWhile isWhiteSpace).reverse.dropWhile isWhiteSpace).reverse

/-! ## Data model -/

/-- One element of `todos`: the object `{ id, text, completed }` built by
`addTodo`. The `id` is a `Date.now()` reading, an integer number of
milliseconds. -/
structure Todo where
  id : Int
  text : JsString
  completed : Bool
deriving DecidableEq, Repr

/-- The state hooks of `App` (lines 41-45), the item `"todos"` of
`localStorage` (absent, or a string) and whether the 800ms timeout set by the
load effect is still outstanding. -/
structure State where
  todos : List Todo
  input : JsString
  filter : String
  darkMode : Bool
  isLoading : Bool
  storage : Option JsString
  timerPending : Bool
deriving DecidableEq, Repr

/-! ## `JSON.stringify` on a list of todos -/

/-- Decimal digits of a natural number, most significant first, as code
units; `fuel` bounds the number of digits. -/
def natDigitsAux : Nat → Nat → List Nat → List Nat
  | 0, _, acc => acc
  | fuel + 1, n, acc =>
    if n < 10 then (48 + n) :: acc
    else natDigitsAux fuel (n / 10) ((48 + n % 10) :: acc)

/-- Decimal numeral of a natural number. -/
def natDigits (n : Nat) : List Nat :=
  natDigitsAux (n + 1) n []

/-- `Number::toString` on an integer-valued number below `10^21` in
magnitude (every `Date.now()` reading is): an optional minus sign and the
decimal digits. -/
def numberToString (n : Int) : JsString :=
  if n < 0 then 45 :: natDigits n.natAbs else natDigits n.natAbs

/-- One lower-case hexadecimal digit. -/
def hexDigit (d : Nat) : Nat :=
  if d < 10 then 48 + d else 87 + d

/-- The escape `\uXXXX` of a code unit, hexadecimal digits in lower case. -/
def unicodeEscape (u : Nat) : List Nat :=
  [92, 117, hexDigit (u / 4096 % 16), hexDigit (u / 256 % 16), hexDigit (u / 16 % 16),
    hexDigit (u % 16)]

/-- High (leading) surrogate code unit. -/
def isHighSurrogate (u : Nat) : Bool :=
  55296 ≤ u && u ≤ 56319

/-- Low (trailing) surrogate code unit. -/
def isLowSurrogate (u : Nat) : Bool :=
  56320 ≤ u && u ≤ 57343

/-- `QuoteJSONString` on a code unit that is not a surrogate: the two-character
escapes for backspace, tab, line feed, form feed, carriage return, the double
quote and the backslash; `\u00XX` for the other control characters; the unit
itself otherwise. -/
def escapeUnit (u : Nat) : List Nat :=
  if u = 8 then [92, 98]
  else if u = 9 then [92, 116]
  else if u = 10 then [92, 110]
  else if u = 12 then [92, 102]
  else if u = 13 then [92, 114]
  else if u = 34 then [92, 34]
  else if u = 92 then [92, 92]
  else if u < 32 then unicodeEscape u
  else [u]

/-- The body of `QuoteJSONString`: a surrogate pair is copied, a lone
surrogate is written as a `\uXXXX` escape, every other unit goes through
`escapeUnit`. -/
def quoteBody : List Nat → List Nat
  | [] => []
  | [u] => if isHighSurrogate u || isLowSurrogate u then unicodeEscape u else escapeUnit u
  | u :: v :: rest =>
    if isHighSurrogate u then
      if isLowSurrogate v then u :: v :: quoteBody rest
      else unicodeEscape u ++ quoteBody (v :: rest)
    else if isLowSurrogate u then unicodeEscape u ++ quoteBody (v :: rest)
    else escapeUnit u ++ quoteBody (v :: rest)

/-- `QuoteJSONString`: the escaped body between double quotes. -/
def quoteJSONString (s : JsString) : JsString :=
  34 :: (quoteBody s ++ [34])

/-- `JSON.stringify` of a boolean. -/
def boolToString (b : Bool) : JsString :=
  if b then utf16 "true" else utf16 "false"

/-- `JSON.stringify` of one todo: its own properties in creation order,
`id`, `text`, `completed`, without white space. -/
def stringifyTodo (t : Todo) : JsString :=
  utf16 "\x7b\"id\":" ++ numberToString t.id ++ utf16 ",\"text\":" ++ quoteJSONString t.text ++
    utf16 ",\"completed\":" ++ boolToString t.completed ++ utf16 "\x7d"

/-- The elements of an array, separated by commas. -/
def stringifyElems : List Todo → JsString
  | [] => []
  | [t] => stringifyTodo t
  | t :: u :: rest => stringifyTodo t ++ 44 :: stringifyElems (u :: rest)

/-- `JSON.stringify(todos)`. -/
def JSON.stringify (todos : List Todo) : JsString :=
  91 :: (stringifyElems todos ++ [93])

/-! ## `JSON.parse` -/

/-- The decimal a JSON numeral denotes, `(-1)^neg * mant * 10^exp`; the
Number value is the double nearest to it. -/
structure JsNumber where
  neg : Bool
  mant : Nat
  exp : Int
deriving DecidableEq, Repr

/-- The values `JSON.parse` can return; an object is the list of its members
in source order. -/
inductive JsValue
  | null
  | bool (b : Bool)
  | num (n : JsNumber)
  | str (s : JsString)
  | arr (xs : List JsValue)
  | obj (members : List (JsString × JsValue))
deriving Repr

/-- Why a run of the parser stops without a value: the `SyntaxError` that
`JSON.parse` throws, or the recursion bound of this model being reached
(`JSON.parse` below never is, see `parse_ne_fuel`). -/
inductive ParseError
  | syntaxError
  | fuel
deriving DecidableEq, Repr

/-- JSON white space: tab, line feed, carriage return, space. -/
def isJsonWhiteSpace (u : Nat) : Bool :=
  u == 9 || u == 10 || u == 13 || u == 32

/-- Skip JSON white space. -/
def skipWs (s : List Nat) : List Nat :=
  s.dropWhile isJsonWhiteSpace

/-- Value of a hexadecimal digit, in either case. -/
def hexVal (u : Nat) : Option Nat :=
  if 48 ≤ u ∧ u ≤ 57 then some (u - 48)
  else if 97 ≤ u ∧ u ≤ 102 then some (u - 87)
  else if 65 ≤ u ∧ u ≤ 70 then some (u - 55)
  else none

/-- The code unit a single-character escape stands for:
`\"`, `\\`, `\/`, `\b`, `\f`, `\n`, `\r`, `\t`. -/
def unescape (u : Nat) : Option Nat :=
  if u = 34 then some 34
  else if u = 92 then some 92
  else if u = 47 then some 47
  else if u = 98 then some 8
  else if u = 102 then some 12
  else if u = 110 then some 10
  else if u = 114 then some 13
  else if u = 116 then some 9
  else none

/-- The characters of a JSON string after its opening quote, up to and
including the closing quote: the string denoted and the remaining input, or
`none` on an unterminated string, a raw control character or a bad escape. -/
def parseChars : List Nat → Option (JsString × List Nat)
  | [] => none
  | u :: rest =>
    if u = 34 then some ([], rest)
    else if u = 92 then
      match rest with
      | [] => none
      | e :: rest1 =>
        if e = 117 then
          match rest1 with
          | a :: b :: c :: d :: rest2 =>
            match hexVal a, hexVal b, hexVal c, hexVal d with
            | some a, some b, some c, some d =>
              match parseChars rest2 with
              | some (s, r) => some ((a * 4096 + b * 256 + c * 16 + d) :: s, r)
              | none => none
            | _, _, _, _ => none
          | _ => none
        else
          match unescape e with
          | some x =>
            match parseChars rest1 with
            | some (s, r) => some (x :: s, r)
            | none => none
          | none => none
    else if u < 32 then none
    else
      match parseChars rest with
      | some (s, r) => some (u :: s, r)
      | none => none

/-- Decimal digit. -/
def isDigit (u : Nat) : Bool :=
  48 ≤ u && u ≤ 57

/-- The natural number written by a list of decimal digits. -/
def digitsValue (ds : List Nat) : Nat :=
  ds.foldl (fun acc d => acc * 10 + (d - 48)) 0

/-- Integer part of a JSON numeral: `0`, or a non-zero digit followed by
digits. -/
def parseInt (s : List Nat) : Option (List Nat × List Nat) :=
  match s with
  | [] => none
  | d :: rest =>
    if d = 48 then some ([48], rest)
    else if isDigit d then some (d :: rest.takeWhile isDigit, rest.dropWhile isDigit)
    else none

/-- Optional fraction of a JSON numeral: a point and at least one digit. -/
def parseFrac (s : List Nat) : Option (List Nat × List Nat) :=
  match s with
  | 46 :: rest =>
    if rest.takeWhile isDigit = [] then none
    else some (rest.takeWhile isDigit, rest.dropWhile isDigit)
  | _ => some ([], s)

/-- The digits of an exponent, at least one. -/
def parseExpDigits (neg : Bool) (s : List Nat) : Option (Int × List Nat) :=
  if s.takeWhile isDigit = [] then none
  else
    some (if neg then -(digitsValue (s.takeWhile isDigit) : Int)
      else (digitsValue (s.takeWhile isDigit) : Int), s.dropWhile isDigit)

/-- Optional exponent of a JSON numeral: `e` or `E`, an optional sign,
digits. -/
def parseExp (s : List Nat) : Option (Int × List Nat) :=
  match s with
  | [] => some (0, [])
  | e :: rest =>
    if e = 101 ∨ e = 69 then
      match rest with
      | [] => none
      | sg :: rest1 =>
        if sg = 43 then parseExpDigits false rest1
        else if sg = 45 then parseExpDigits true rest1
        else parseExpDigits false rest
    else some (0, s)

/-- A JSON numeral after its optional minus sign. -/
def parseUnsigned (neg : Bool) (s : List Nat) : Option (JsNumber × List Nat) :=
  match parseInt s with
  | none => none
  | some (ids, r1) =>
    match parseFrac r1 with
    | none => none
    | some (fds, r2) =>
      match parseExp r2 with
      | none => none
      | some (e, r3) =>
        some ({ neg := neg, mant := digitsValue (ids ++ fds), exp := e - (fds.length : Int) }, r3)

/-- A JSON numeral. -/
def parseNumber (s : List Nat) : Option (JsNumber × List Nat) :=
  match s with
  | [] => none
  | u :: rest => if u = 45 then parseUnsigned true rest else parseUnsigned false s

/-- The rest of one of the literals `null`, `true`, `false` after its first
letter. -/
def expectLit (lit : List Nat) (v : JsValue) (s : List Nat) :
    Except ParseError (JsValue × List Nat) :=
  if lit.isPrefixOf s then .ok (v, s.drop lit.length) else .error .syntaxError

mutual
/-- One JSON value at the head of the input (white space already skipped);
the first argument bounds the recursion. -/
def parseValue : Nat → List Nat → Except ParseError (JsValue × List Nat)
  | 0, _ => .error .fuel
  | fuel + 1, s =>
    match s with
    | [] => .error .syntaxError
    | u :: rest =>
      if u = 110 then expectLit [117, 108, 108] .null rest
      else if u = 116 then expectLit [114, 117, 101] (.bool true) rest
      else if u = 102 then expectLit [97, 108, 115, 101] (.bool false) rest
      else if u = 34 then
        match parseChars rest with
        | some (str, r) => .ok (.str str, r)
        | none => .error .syntaxError
      else if u = 91 then
        match skipWs rest with
        | [] => .error .syntaxError
        | c :: r =>
          if c = 93 then .ok (.arr [], r)
          else
            match parseElems fuel (c :: r) with
            | .ok (xs, r1) => .ok (.arr xs, r1)
            | .error e => .error e
      else if u = 123 then
        match skipWs rest with
        | [] => .error .syntaxError
        | c :: r =>
          if c = 125 then .ok (.obj [], r)
          else
            match parseMembers fuel (c :: r) with
            | .ok (ms, r1) => .ok (.obj ms, r1)
            | .error e => .error e
      else
        match parseNumber s with
        | some (n, r) => .ok (.num n, r)
        | none => .error .syntaxError
/-- The elements of a non-empty array, up to and including the closing
bracket. -/
def parseElems : Nat → List Nat → Except ParseError (List JsValue × List Nat)
  | 0, _ => .error .fuel
  | fuel + 1, s =>
    match parseValue fuel s with
    | .error e => .error e
    | .ok (v, r) =>
      match skipWs r with
      | [] => .error .syntaxError
      | c :: r1 =>
        if c = 93 then .ok ([v], r1)
        else if c = 44 then
          match parseElems fuel (skipWs r1) with
          | .ok (vs, r2) => .ok (v :: vs, r2)
          | .error e => .error e
        else .error .syntaxError
/-- The members of a non-empty object, up to and including the closing
brace. -/
def parseMembers : Nat → List Nat → Except ParseError (List (JsString × JsValue) × List Nat)
  | 0, _ => .error .fuel
  | fuel + 1, s =>
    match s with
    | [] => .error .syntaxError
    | q :: s1 =>
      if q = 34 then
        match parseChars s1 with
        | none => .error .syntaxError
        | some (key, r) =>
          match skipWs r with
          | [] => .error .syntaxError
          | c :: r1 =>
            if c = 58 then
              match parseValue fuel (skipWs r1) with
              | .error e => .error e
              | .ok (v, r2) =>
                match skipWs r2 with
                | [] => .error .syntaxError
                | c2 :: r3 =>
                  if c2 = 125 then .ok ([(key, v)], r3)
                  else if c2 = 44 then
                    match parseMembers fuel (skipWs r3) with
                    | .ok (ms, r4) => .ok ((key, v) :: ms, r4)
                    | .error e => .error e
                  else .error .syntaxError
            else .error .syntaxError
      else .error .syntaxError
end

/-- `JSON.parse(text)` without a reviver: one value, white space allowed
around it, nothing else after it. -/
def JSON.parse (text : JsString) : Except ParseError JsValue :=
  match parseValue (2 * text.length + 2) (skipWs text) with
  | .error e => .error e
  | .ok (v, r) => if skipWs r = [] then .ok v else .error .syntaxError

/-- The Number is `+0` or `-0`: the mantissa is zero, or the decimal is at
most `2^-1075`, half the least positive double, and rounds to zero. -/
def JsNumber.isZero (n : JsNumber) : Bool :=
  n.mant == 0 || (decide (n.exp < 0) && decide (n.mant * 2 ^ 1075 ≤ 10 ^ n.exp.natAbs))

/-- `ToBoolean`, as applied by the operator `||`: `null`, `false`, a zero and
the empty string are falsy, every other value is truthy. -/
def JsValue.truthy : JsValue → Bool
  | .null => false
  | .bool b => b
  | .num n => !n.isZero
  | .str s => !s.isEmpty
  | .arr _ => true
  | .obj _ => true

/-- The integer a numeral denotes, when it denotes one. (Exact as a Number
up to `2^53` in magnitude, which covers every `Date.now()` reading.) -/
def JsNumber.toInt? (n : JsNumber) : Option Int :=
  if 0 ≤ n.exp then
    some (if n.neg then -((n.mant * 10 ^ n.exp.natAbs : Nat) : Int)
      else ((n.mant * 10 ^ n.exp.natAbs : Nat) : Int))
  else if n.mant % 10 ^ n.exp.natAbs = 0 then
    some (if n.neg then -((n.mant / 10 ^ n.exp.natAbs : Nat) : Int)
      else ((n.mant / 10 ^ n.exp.natAbs : Nat) : Int))
  else none

/-- The todo a parsed value is, if it is an object with exactly the members
`id` (an integer), `text` (a string) and `completed` (a boolean), in the
order `JSON.stringify` writes them: the objects the component itself stores.
Any other object (members in another order, further members) is outside the
record `Todo`, and the callback that loads one answers `loadedOther`; no run
from the mounted component stores one (see `timerCallback_of_storage`). -/
def toTodo : JsValue → Option Todo
  | .obj [(k1, .num n), (k2, .str s), (k3, .bool b)] =>
    if k1 = utf16 "id" ∧ k2 = utf16 "text" ∧ k3 = utf16 "completed" then
      match n.toInt? with
      | some i => some { id := i, text := s, completed := b }
      | none => none
    else none
  | _ => none

/-- The todos a list of parsed values is, if each of them is a todo. -/
def toTodoList : List JsValue → Option (List Todo)
  | [] => some []
  | v :: vs =>
    match toTodo v, toTodoList vs with
    | some t, some ts => some (t :: ts)
    | _, _ => none

/-- The list of todos a parsed value is, if it is an array of todos. -/
def toTodos : JsValue → Option (List Todo)
  | .arr xs => toTodoList xs
  | _ => none

/-- The parsed value of one todo as `JSON.stringify` writes it. -/
def encodeTodo (t : Todo) : JsValue :=
  .obj [(utf16 "id", .num { neg := decide (t.id < 0), mant := t.id.natAbs, exp := 0 }),
    (utf16 "text", .str t.text), (utf16 "completed", .bool t.completed)]

/-- The parsed value of a list of todos as `JSON.stringify` writes it. -/
def encodeTodos (ts : List Todo) : JsValue :=
  .arr (ts.map encodeTodo)

/-! ## The component -/

/-- The state of the first render: the initial values of the five hooks
(lines 41-45), over a `localStorage` whose item `"todos"` is `stored`. -/
def initialState (stored : Option JsString) : State :=
  { todos := [], input := [], filter := "all", darkMode := false, isLoading := true,
    storage := stored, timerPending := false }

/-- The load effect at mount (lines 48-55): it only schedules the 800ms
timeout. -/
def loadEffect (st : State) : State :=
  { st with timerPending := true }

/-- The save effect (lines 58-60):
`localStorage.setItem("todos", JSON.stringify(todos))`. -/
def saveEffect (st : State) : State :=
  { st with storage := some (JSON.stringify st.todos) }

/-- Mounting the component: the first render, then its effects in
declaration order, the load effect before the save effect. -/
def mount (stored : Option JsString) : State :=
  saveEffect (loadEffect (initialState stored))

/-- The call `setTodos(v)` with a fresh array `v`: the component renders again
with the new `todos`, after which the save effect, keyed on `[todos]`, runs. -/
def setTodos (v : List Todo) (st : State) : State :=
  saveEffect { st with todos := v }

/-- The handler `addTodo` (lines 62-71), at clock reading `now`. -/
def addTodo (now : Int) (st : State) : State :=
  if trim st.input ≠ [] then
    { setTodos (st.todos ++ [{ id := now, text := st.input, completed := false }]) st with
      input := [] }
  else st

/-- The handler `deleteTodo` (lines 73-75). -/
def deleteTodo (id : Int) (st : State) : State :=
  setTodos (st.todos.filter (fun todo => todo.id != id)) st

/-- The handler `toggleComplete` (lines 77-83). -/
def toggleComplete (id : Int) (st : State) : State :=
  setTodos
    (st.todos.map (fun todo => if todo.id = id then { todo with completed := !todo.completed }
      else todo)) st

/-- The derived view `filteredTodos` (lines 85-89) of a list under a filter. -/
def filterTodos (filter : String) (todos : List Todo) : List Todo :=
  todos.filter (fun todo =>
    if filter = "active" then !todo.completed
    else if filter = "completed" then todo.completed
    else true)

/-- The derived view `filteredTodos` of a state. -/
def filteredTodos (st : State) : List Todo :=
  filterTodos st.filter st.todos

/-- The counter `activeCount` (line 91). -/
def activeCount (st : State) : Nat :=
  (st.todos.filter (fun todo => !todo.completed)).length

/-- The number shown by the chip `Completed (...)` (line 220):
`todos.length - activeCount`. -/
def completedLabel (st : State) : Int :=
  (st.todos.length : Int) - (activeCount st : Int)

/-! ## The timeout callback of the load effect -/

/-- The argument of `JSON.parse` in line 50: `localStorage.getItem("todos")`
is `null` when the item is absent, and `JSON.parse` converts its argument to
a string first. -/
def storedText (storage : Option JsString) : JsString :=
  match storage with
  | none => utf16 "null"
  | some s => s

/-- The constant `savedTodos` of line 50:
`JSON.parse(localStorage.getItem("todos")) || []`, or the error thrown by
`JSON.parse`. -/
def savedTodos (storage : Option JsString) : Except ParseError JsValue :=
  match JSON.parse (storedText storage) with
  | .error e => .error e
  | .ok v => .ok (if v.truthy then v else .arr [])

/-- What the timeout callback (lines 49-53) does.
* `threw e`: `JSON.parse` threw, so neither `setTodos` nor `setIsLoading` ran
  and the state is as before the callback;
* `loaded st`: `setTodos(savedTodos)` and `setIsLoading(false)` ran, with
  `savedTodos` a list of todos, and `st` is the state after the render and
  the save effect that follow;
* `loadedOther v`: both setters ran, but `savedTodos` was the value `v`,
  which is not a list of todos: `todos` holds `v`. -/
inductive TimerResult
  | threw (e : ParseError)
  | loaded (st : State)
  | loadedOther (v : JsValue)

/-- The timeout callback of the load effect (lines 49-53). -/
def timerCallback (st : State) : TimerResult :=
  match savedTodos st.storage with
  | .error e => .threw e
  | .ok v =>
    match toTodos v with
    | some ts => .loaded { setTodos ts st with isLoading := false, timerPending := false }
    | none => .loadedOther v

/-- Start-up: mount the component over a `localStorage` whose item `"todos"`
is `stored`, then let the 800ms timeout fire. -/
def startUp (stored : Option JsString) : TimerResult :=
  timerCallback (mount stored)

/-! ## Runs of the component -/

/-- What can happen to the mounted component: the timeout fires, the user
edits the draft (`onChange`), submits it (`addTodo`, at a clock reading),
clicks the delete or the toggle button of a todo, picks a filter, or switches
the theme. -/
inductive Event
  | timer
  | setInput (value : JsString)
  | addTodo (now : Int)
  | deleteTodo (id : Int)
  | toggleComplete (id : Int)
  | setFilter (value : String)
  | toggleDarkMode
deriving DecidableEq, Repr

/-- One event. The timeout fires at most once; `none` when the event cannot
happen (no timeout outstanding) or when the timeout callback stores a value
that is not a list of todos. -/
def step (st : State) : Event → Option State
  | .timer =>
    if st.timerPending then
      match timerCallback st with
      | .threw _ => some { st with timerPending := false }
      | .loaded st1 => some st1
      | .loadedOther _ => none
    else none
  | .setInput value => some { st with input := value }
  | .addTodo now => some (addTodo now st)
  | .deleteTodo id => some (deleteTodo id st)
  | .toggleComplete id => some (toggleComplete id st)
  | .setFilter value => some { st with filter := value }
  | .toggleDarkMode => some { st with darkMode := !st.darkMode }

/-- A sequence of events, from a given state. -/
def run (st : State) : List Event → Option State
  | [] => some st
  | e :: es =>
    match step st e with
    | some st1 => run st1 es
    | none => none

/-- The clock readings taken by the `addTodo` calls of a sequence of
events. -/
def addTimes : List Event → List Int
  | [] => []
  | .addTodo now :: es => now :: addTimes es
  | _ :: es => addTimes es

/-! ## Lemmas on the platform functions -/

theorem trim_eq_nil_iff (s : JsString) : trim s = [] ↔ ∀ u ∈ s, isWhiteSpace u = true := by
  unfold trim
  rw [List.reverse_eq_nil_iff, List.dropWhile_eq_nil_iff]
  constructor
  · intro h u hu
    by_cases hw : isWhiteSpace u = true
    · exact hw
    · exfalso
      have hne : s.dropWhile isWhiteSpace ≠ [] := by
        intro hnil
        exact hw (List.dropWhile_eq_nil_iff.mp hnil u hu)
      have hhead := List.head_dropWhile_not isWhiteSpace s hne
      have hmem : (s.dropWhile isWhiteSpace).head hne ∈ (s.dropWhile isWhiteSpace).reverse :=
        List.mem_reverse.mpr (List.head_mem hne)
      rw [h _ hmem] at hhead
      exact absurd hhead (by simp)
  · intro h x hx
    have hx1 : x ∈ s.dropWhile isWhiteSpace := List.mem_reverse.mp hx
    exact h x ((List.dropWhile_sublist _).subset hx1)

/-! ## The handlers and the derived views -/

theorem filterTodos_all (todos : List Todo) : filterTodos "all" todos = todos := by
  unfold filterTodos
  rw [List.filter_eq_self]
  intro t _
  simp

theorem filterTodos_active (todos : List Todo) :
    filterTodos "active" todos = todos.filter (fun t => !t.completed) := by
  unfold filterTodos
  simp

theorem filterTodos_completed (todos : List Todo) :
    filterTodos "completed" todos = todos.filter (fun t => t.completed) := by
  unfold filterTodos
  congr 1

theorem length_active_add_completed (todos : List Todo) :
    (todos.filter (fun t => !t.completed)).length + (todos.filter (fun t => t.completed)).length
      = todos.length := by
  induction todos with
  | nil => rfl
  | cons t ts ih =>
    cases hc : t.completed <;> simp [List.filter_cons, hc] <;> omega

/-- C4: `addTodo` at clock reading `t`. When the trimmed draft is non-empty,
`todos` becomes `todos ++ [{ id: t, text: input, completed: false }]` (one todo
appended, the earlier ones unchanged) and the draft becomes the empty string;
when the draft is empty or consists of white space only, the whole state,
`todos` and draft included, is unchanged. One of the two cases always
applies. -/
theorem addTodo_spec (st : State) (t : Int) :
    (trim st.input ≠ [] →
      (addTodo t st).todos = st.todos ++ [{ id := t, text := st.input, completed := false }] ∧
      (addTodo t st).input = []) ∧
    ((∀ u ∈ st.input, isWhiteSpace u = true) →
      addTodo t st = st ∧ (addTodo t st).todos = st.todos ∧ (addTodo t st).input = st.input) ∧
    (trim st.input ≠ [] ∨ ∀ u ∈ st.input, isWhiteSpace u = true) := by
  refine ⟨?_, ?_, ?_⟩
  · intro h
    simp [addTodo, h, setTodos, saveEffect]
  · intro h
    have h0 : trim st.input = [] := (trim_eq_nil_iff _).mpr h
    simp [addTodo, h0]
  · by_cases h : trim st.input = []
    · exact Or.inr ((trim_eq_nil_iff _).mp h)
    · exact Or.inl h

theorem addTodo_spec_witness :
    (addTodo 7 { mount none with input := utf16 " Buy milk" }).todos
        = [{ id := 7, text := utf16 " Buy milk", completed := false }] ∧
      (addTodo 7 { mount none with input := utf16 " Buy milk" }).input = [] ∧
      addTodo 7 { mount none with input := utf16 " \t" } = { mount none with input := utf16 " \t" } :=
  ⟨((addTodo_spec { mount none with input := utf16 " Buy milk" } 7).1 (by decide)).1,
    ((addTodo_spec { mount none with input := utf16 " Buy milk" } 7).1 (by decide)).2,
    ((addTodo_spec { mount none with input := utf16 " \t" } 7).2.1 (by decide)).1⟩

/-- C6: `deleteTodo(id)` keeps exactly the todos whose id differs from `id`,
each unchanged, each as often as before and in the original order; it leaves
the list unchanged when no todo has that id; and under every filter the view
of the resulting list contains no todo with that id. -/
theorem deleteTodo_spec (st : State) (id : Int) :
    (deleteTodo id st).todos = st.todos.filter (fun t => decide (t.id ≠ id)) ∧
    (deleteTodo id st).todos.Sublist st.todos ∧
    (∀ t, t ∈ (deleteTodo id st).todos ↔ t ∈ st.todos ∧ t.id ≠ id) ∧
    (∀ t, t.id ≠ id → (deleteTodo id st).todos.count t = st.todos.count t) ∧
    ((∀ t ∈ st.todos, t.id ≠ id) → (deleteTodo id st).todos = st.todos) ∧
    (∀ f : String, ∀ t ∈ filterTodos f (deleteTodo id st).todos, t.id ≠ id) := by
  have hdef : (deleteTodo id st).todos = st.todos.filter (fun t => decide (t.id ≠ id)) := by
    show st.todos.filter (fun todo => todo.id != id) = _
    congr 1
    funext t
    by_cases h : t.id = id <;> simp [h]
  have hmem : ∀ t, t ∈ (deleteTodo id st).todos ↔ t ∈ st.todos ∧ t.id ≠ id := by
    intro t
    rw [hdef, List.mem_filter]
    simp
  refine ⟨hdef, ?_, hmem, ?_, ?_, ?_⟩
  · rw [hdef]
    exact List.filter_sublist _
  · intro t ht
    rw [hdef]
    exact List.count_filter (by simpa using ht)
  · intro h
    rw [hdef, List.filter_eq_self]
    intro t ht
    simpa using h t ht
  · intro f t ht
    have h1 : t ∈ (deleteTodo id st).todos := (List.filter_sublist _).subset ht
    exact ((hmem t).mp h1).2

theorem deleteTodo_spec_witness :
    (deleteTodo 9 { mount none with todos := [⟨1, utf16 "a", false⟩, ⟨2, utf16 "b", true⟩] }).todos
      = [⟨1, utf16 "a", false⟩, ⟨2, utf16 "b", true⟩] :=
  (deleteTodo_spec { mount none with todos := [⟨1, utf16 "a", false⟩, ⟨2, utf16 "b", true⟩] } 9).2.2.2.2.1
    (by decide)

theorem toggleComplete_todos (st : State) (id : Int) :
    (toggleComplete id st).todos
      = st.todos.map (fun todo => if todo.id = id then { todo with completed := !todo.completed }
          else todo) := by
  simp [toggleComplete, setTodos, saveEffect]

/-- C7: `toggleComplete(id)` returns a list of the same length in which, at
every position, a todo whose id differs from `id` is unchanged and a todo with
that id keeps its id and text and has `completed` negated; when no todo has
that id the list is unchanged. -/
theorem toggleComplete_spec (st : State) (id : Int) :
    (toggleComplete id st).todos.length = st.todos.length ∧
    (∀ (i : Nat) (t : Todo), st.todos[i]? = some t →
      ∃ t1, (toggleComplete id st).todos[i]? = some t1 ∧
        (t.id ≠ id → t1 = t) ∧
        (t.id = id → t1.id = t.id ∧ t1.text = t.text ∧ t1.completed = !t.completed)) ∧
    ((∀ t ∈ st.todos, t.id ≠ id) → (toggleComplete id st).todos = st.todos) := by
  rw [toggleComplete_todos]
  refine ⟨by simp, ?_, ?_⟩
  · intro i t hi
    refine ⟨if t.id = id then { t with completed := !t.completed } else t, ?_, ?_, ?_⟩
    · rw [List.getElem?_map, hi]
      rfl
    · intro h
      rw [if_neg h]
    · intro h
      rw [if_pos h]
      exact ⟨rfl, rfl, rfl⟩
  · intro h
    conv_rhs => rw [← List.map_id st.todos]
    apply List.map_congr_left
    intro t ht
    rw [if_neg (h t ht)]
    rfl

theorem toggleComplete_spec_witness :
    ∃ t1, (toggleComplete 2 { mount none with
        todos := [⟨1, utf16 "a", false⟩, ⟨2, utf16 "b", true⟩] }).todos[1]? = some t1 ∧
      (((⟨2, utf16 "b", true⟩ : Todo).id ≠ 2 → t1 = ⟨2, utf16 "b", true⟩) ∧
      ((⟨2, utf16 "b", true⟩ : Todo).id = 2 → t1.id = (⟨2, utf16 "b", true⟩ : Todo).id ∧
        t1.text = (⟨2, utf16 "b", true⟩ : Todo).text ∧
        t1.completed = !(⟨2, utf16 "b", true⟩ : Todo).completed)) :=
  (toggleComplete_spec { mount none with todos := [⟨1, utf16 "a", false⟩, ⟨2, utf16 "b", true⟩] }
    2).2.1 1 ⟨2, utf16 "b", true⟩ (by decide)

/-- C8: `toggleComplete(id)` applied twice in succession gives back the
original list of todos, so every `completed` flag is back at its original
value; the stored item is then the serialisation of that list and the other
hooks are untouched. -/
theorem toggleComplete_twice (st : State) (id : Int) :
    (toggleComplete id (toggleComplete id st)).todos = st.todos ∧
    toggleComplete id (toggleComplete id st) = saveEffect st := by
  have h : (toggleComplete id (toggleComplete id st)).todos = st.todos := by
    rw [toggleComplete_todos, toggleComplete_todos, List.map_map]
    conv_rhs => rw [← List.map_id st.todos]
    apply List.map_congr_left
    intro t _
    obtain ⟨tid, ttext, tdone⟩ := t
    by_cases ht : tid = id
    · simp [ht]
    · simp [ht]
  refine ⟨h, ?_⟩
  have h2 := h
  simp only [toggleComplete, setTodos, saveEffect] at h2 ⊢
  simp only [h2]

/-- C9: the view under the filter `all` is the whole list; under `active` it
is exactly the todos with `completed` false; under `completed` exactly those
with `completed` true; and under every filter the view is a subsequence of the
list, in the original order. -/
theorem filterTodos_spec (todos : List Todo) :
    filterTodos "all" todos = todos ∧
    filterTodos "active" todos = todos.filter (fun t => decide (t.completed = false)) ∧
    (∀ t, t ∈ filterTodos "active" todos ↔ t ∈ todos ∧ t.completed = false) ∧
    filterTodos "completed" todos = todos.filter (fun t => decide (t.completed = true)) ∧
    (∀ t, t ∈ filterTodos "completed" todos ↔ t ∈ todos ∧ t.completed = true) ∧
    (∀ f : String, (filterTodos f todos).Sublist todos) ∧
    (∀ st : State, filteredTodos st = filterTodos st.filter st.todos) := by
  refine ⟨filterTodos_all todos, ?_, ?_, ?_, ?_, ?_, fun _ => rfl⟩
  · rw [filterTodos_active]
    congr 1
    funext t
    cases t.completed <;> rfl
  · intro t
    rw [filterTodos_active, List.mem_filter]
    simp
  · rw [filterTodos_completed]
    congr 1
    funext t
    cases t.completed <;> rfl
  · intro t
    rw [filterTodos_completed, List.mem_filter]
  · intro f
    exact List.filter_sublist _

/-- C10: in every state (so in every state a sequence of `addTodo`,
`deleteTodo` and `toggleComplete` calls reaches) the view under `all` is as
long as `todos`; `activeCount` is the number of todos with `completed` false;
the length of the view under `completed` is the number of todos with
`completed` true; the two add up to the length of `todos`; and the number the
chip `Completed` shows, `todos.length - activeCount`, is the length of the
view under `completed`. -/
theorem counts_spec (st : State) :
    (filteredTodos { st with filter := "all" }).length = st.todos.length ∧
    activeCount st = st.todos.countP (fun t => decide (t.completed = false)) ∧
    (filteredTodos { st with filter := "completed" }).length
      = st.todos.countP (fun t => decide (t.completed = true)) ∧
    activeCount st + (filteredTodos { st with filter := "completed" }).length = st.todos.length ∧
    completedLabel st = ((filteredTodos { st with filter := "completed" }).length : Int) := by
  have hsum := length_active_add_completed st.todos
  have hc : (filteredTodos { st with filter := "completed" }).length
      = (st.todos.filter (fun t => t.completed)).length := by
    show (filterTodos "completed" st.todos).length = _
    rw [filterTodos_completed]
  refine ⟨?_, ?_, ?_, ?_, ?_⟩
  · show (filterTodos "all" st.todos).length = _
    rw [filterTodos_all]
  · unfold activeCount
    rw [List.countP_eq_length_filter]
    congr 2
    funext t
    cases t.completed <;> rfl
  · rw [hc, List.countP_eq_length_filter]
    congr 2
    funext t
    cases t.completed <;> rfl
  · rw [hc]
    exact hsum
  · rw [hc]
    unfold completedLabel activeCount
    omega

/-! ## Start-up and the stored item -/

theorem mount_storage (stored : Option JsString) :
    (mount stored).storage = some (utf16 "[]") := by
  rfl

theorem startUp_eq (stored : Option JsString) :
    startUp stored = .loaded ⟨[], [], "all", false, false, some (utf16 "[]"), false⟩ := by
  rfl

/-- C1 (the code at a failing input): with the one-element list
`[{ id: 1, text: "a", completed: false }]` stored under `"todos"`, the save
effect of the mount overwrites the item with `"[]"` before the timeout fires,
so after start-up `todos` is empty, not the stored list, and the stored item
is `"[]"`. -/
theorem startUp_discards_stored_todos :
    (mount (some (JSON.stringify [⟨1, utf16 "a", false⟩]))).storage = some (utf16 "[]") ∧
    startUp (some (JSON.stringify [⟨1, utf16 "a", false⟩]))
      = .loaded ⟨[], [], "all", false, false, some (utf16 "[]"), false⟩ ∧
    JSON.parse (JSON.stringify [⟨1, utf16 "a", false⟩])
      = .ok (encodeTodos [⟨1, utf16 "a", false⟩]) ∧
    toTodos (encodeTodos [⟨1, utf16 "a", false⟩]) = some [⟨1, utf16 "a", false⟩] :=
  ⟨rfl, rfl, rfl, rfl⟩

/-- Line 50 taken alone, on items that no run from the mounted component
stores (the save effect has written `"[]"` before the callback reads): a
string that `JSON.parse` rejects makes the callback throw, so that neither
setter runs, and a truthy value other than a list of todos, here the empty
object, is stored into `todos` as it is. -/
theorem timerCallback_foreign_item :
    JSON.parse (utf16 "\x7b") = .error .syntaxError ∧
    timerCallback { mount none with storage := some (utf16 "\x7b") } = .threw .syntaxError ∧
    timerCallback { mount none with storage := some (utf16 "\x7b\x7d") } = .loadedOther (.obj []) :=
  ⟨rfl, rfl, rfl⟩

/-- The fallback `|| []` of line 50 taken alone: on an absent item, or a
string that `JSON.parse` accepts and whose value is falsy (`null`, `false`, a
zero, the empty string), the callback throws nothing, sets `todos` to the
empty list and `isLoading` to false; the save effect then stores `"[]"`. -/
theorem timerCallback_falsy (st : State)
    (h : st.storage = none ∨
      ∃ s v, st.storage = some s ∧ JSON.parse s = .ok v ∧ v.truthy = false) :
    timerCallback st
      = .loaded ⟨[], st.input, st.filter, st.darkMode, false, some (utf16 "[]"), false⟩ := by
  have hs : savedTodos st.storage = .ok (.arr []) := by
    rcases h with h | ⟨s, v, h1, h2, h3⟩
    · rw [h]
      rfl
    · rw [h1]
      simp [savedTodos, storedText, h2, h3]
  unfold timerCallback
  rw [hs]
  rfl

set_option exponentiation.threshold 2000 in
theorem falsy_examples :
    (JSON.parse (utf16 "false")).map JsValue.truthy = .ok false ∧
    (JSON.parse (utf16 "0")).map JsValue.truthy = .ok false ∧
    (JSON.parse (utf16 "-0.0")).map JsValue.truthy = .ok false ∧
    (JSON.parse (utf16 "2e-324")).map JsValue.truthy = .ok false ∧
    (JSON.parse (utf16 "\"\"")).map JsValue.truthy = .ok false ∧
    (JSON.parse (utf16 "5e-324")).map JsValue.truthy = .ok true ∧
    (JSON.parse (utf16 "[]")).map JsValue.truthy = .ok true :=
  ⟨rfl, rfl, rfl, rfl, rfl, rfl, rfl⟩

/-! ## The stored item along a run -/

theorem saveEffect_storage (st : State) :
    (saveEffect st).storage = some (JSON.stringify (saveEffect st).todos) := by
  rfl

theorem timerCallback_storage (st st1 : State) (h : timerCallback st = .loaded st1) :
    st1.storage = some (JSON.stringify st1.todos) := by
  unfold timerCallback at h
  cases hs : savedTodos st.storage with
  | error e => simp [hs] at h
  | ok v =>
    cases ht : toTodos v with
    | none => simp [hs, ht] at h
    | some ts =>
      simp only [hs, ht, TimerResult.loaded.injEq] at h
      rw [← h]
      rfl

theorem step_storage (st st1 : State) (e : Event)
    (hinv : st.storage = some (JSON.stringify st.todos)) (h : step st e = some st1) :
    st1.storage = some (JSON.stringify st1.todos) := by
  cases e with
  | timer =>
    simp only [step] at h
    by_cases hp : st.timerPending = true
    · rw [if_pos hp] at h
      cases hcb : timerCallback st with
      | threw err =>
        simp only [hcb, Option.some.injEq] at h
        rw [← h]
        exact hinv
      | loaded st2 =>
        simp only [hcb, Option.some.injEq] at h
        rw [← h]
        exact timerCallback_storage st st2 hcb
      | loadedOther v => simp [hcb] at h
    · rw [if_neg hp] at h
      simp at h
  | setInput value =>
    simp only [step, Option.some.injEq] at h
    rw [← h]
    exact hinv
  | addTodo now =>
    simp only [step, Option.some.injEq] at h
    rw [← h]
    unfold addTodo
    split
    · rfl
    · exact hinv
  | deleteTodo id =>
    simp only [step, Option.some.injEq] at h
    rw [← h]
    rfl
  | toggleComplete id =>
    simp only [step, Option.some.injEq] at h
    rw [← h]
    rfl
  | setFilter value =>
    simp only [step, Option.some.injEq] at h
    rw [← h]
    exact hinv
  | toggleDarkMode =>
    simp only [step, Option.some.injEq] at h
    rw [← h]
    exact hinv

theorem run_storage (es : List Event) (st st1 : State)
    (hinv : st.storage = some (JSON.stringify st.todos)) (h : run st es = some st1) :
    st1.storage = some (JSON.stringify st1.todos) := by
  induction es generalizing st with
  | nil =>
    simp only [run, Option.some.injEq] at h
    rw [← h]
    exact hinv
  | cons e es ih =>
    simp only [run] at h
    cases hs : step st e with
    | none => simp [hs] at h
    | some st2 =>
      rw [hs] at h
      exact ih st2 (step_storage st st2 e hinv hs) h

/-- C3: in every state reached from the mounted component by a sequence of
events (`addTodo`, `deleteTodo`, `toggleComplete`, edits of the draft, filter
and theme changes, the timeout), the item stored under `"todos"` is
`JSON.stringify` of the whole current `todos`. -/
theorem storage_is_stringify_todos (stored : Option JsString) (es : List Event) (st : State)
    (h : run (mount stored) es = some st) :
    st.storage = some (JSON.stringify st.todos) :=
  run_storage es (mount stored) st rfl h

theorem storage_is_stringify_todos_witness :
    (⟨[⟨5, utf16 "a", true⟩], [], "all", false, false,
        some (utf16 "[\x7b\"id\":5,\"text\":\"a\",\"completed\":true\x7d]"), false⟩ : State).storage
      = some (JSON.stringify (⟨[⟨5, utf16 "a", true⟩], [], "all", false, false,
        some (utf16 "[\x7b\"id\":5,\"text\":\"a\",\"completed\":true\x7d]"), false⟩ : State).todos) :=
  storage_is_stringify_todos none
    [.setInput (utf16 "a"), .addTodo 5, .timer, .setInput (utf16 "b"), .addTodo 6,
      .toggleComplete 5, .deleteTodo 6]
    ⟨[⟨5, utf16 "a", true⟩], [], "all", false, false,
      some (utf16 "[\x7b\"id\":5,\"text\":\"a\",\"completed\":true\x7d]"), false⟩ (by decide)

/-! ## `JSON.parse` inverts `JSON.stringify` -/

theorem hexVal_hexDigit (d : Nat) (h : d < 16) : hexVal (hexDigit d) = some d := by
  unfold hexDigit hexVal
  by_cases h1 : d < 10
  · rw [if_pos h1, if_pos (by omega)]
    congr 1
    omega
  · rw [if_neg h1, if_neg (by omega), if_pos (by omega)]
    congr 1
    omega

theorem parseChars_cons (u : Nat) (rest : List Nat) :
    parseChars (u :: rest) =
      if u = 34 then some ([], rest)
      else if u = 92 then
        match rest with
        | [] => none
        | e :: rest1 =>
          if e = 117 then
            match rest1 with
            | a :: b :: c :: d :: rest2 =>
              match hexVal a, hexVal b, hexVal c, hexVal d with
              | some a, some b, some c, some d =>
                match parseChars rest2 with
                | some (s, r) => some ((a * 4096 + b * 256 + c * 16 + d) :: s, r)
                | none => none
              | _, _, _, _ => none
            | _ => none
          else
            match unescape e with
            | some x =>
              match parseChars rest1 with
              | some (s, r) => some (x :: s, r)
              | none => none
            | none => none
      else if u < 32 then none
      else
        match parseChars rest with
        | some (s, r) => some (u :: s, r)
        | none => none := by
  rw [parseChars.eq_def]

theorem parseChars_quote (rest : List Nat) : parseChars (34 :: rest) = some ([], rest) := by
  rw [parseChars_cons, if_pos rfl]

theorem quoteBody_single (u : Nat) :
    quoteBody [u]
      = if isHighSurrogate u || isLowSurrogate u then unicodeEscape u else escapeUnit u := by
  rw [quoteBody]

theorem quoteBody_cons_cons (u v : Nat) (rest : List Nat) :
    quoteBody (u :: v :: rest) =
      if isHighSurrogate u then
        if isLowSurrogate v then u :: v :: quoteBody rest
        else unicodeEscape u ++ quoteBody (v :: rest)
      else if isLowSurrogate u then unicodeEscape u ++ quoteBody (v :: rest)
      else escapeUnit u ++ quoteBody (v :: rest) := by
  rw [quoteBody]

theorem parseChars_unicodeEscape (u : Nat) (hu : u < 65536) (t s r : List Nat)
    (h : parseChars t = some (s, r)) :
    parseChars (unicodeEscape u ++ t) = some (u :: s, r) := by
  have e : u / 4096 % 16 * 4096 + u / 256 % 16 * 256 + u / 16 % 16 * 16 + u % 16 = u := by
    omega
  simp only [unicodeEscape, List.cons_append, List.nil_append]
  rw [parseChars_cons]
  simp only [show (92 : Nat) ≠ 34 by decide, if_false, if_true]
  rw [hexVal_hexDigit _ (Nat.mod_lt _ (by norm_num)), hexVal_hexDigit _ (Nat.mod_lt _ (by norm_num)),
    hexVal_hexDigit _ (Nat.mod_lt _ (by norm_num)), hexVal_hexDigit _ (Nat.mod_lt _ (by norm_num))]
  simp [h, e]

theorem parseChars_raw (u : Nat) (h1 : u ≠ 34) (h2 : u ≠ 92) (h3 : 32 ≤ u) (t s r : List Nat)
    (h : parseChars t = some (s, r)) :
    parseChars (u :: t) = some (u :: s, r) := by
  rw [parseChars_cons, if_neg h1, if_neg h2, if_neg (by omega), h]

theorem parseChars_escapeUnit (u : Nat) (t s r : List Nat) (h : parseChars t = some (s, r)) :
    parseChars (escapeUnit u ++ t) = some (u :: s, r) := by
  unfold escapeUnit
  split_ifs with h8 h9 h10 h12 h13 h34 h92 h32
  · subst h8; simp [parseChars_cons, unescape, h]
  · subst h9; simp [parseChars_cons, unescape, h]
  · subst h10; simp [parseChars_cons, unescape, h]
  · subst h12; simp [parseChars_cons, unescape, h]
  · subst h13; simp [parseChars_cons, unescape, h]
  · subst h34; simp [parseChars_cons, unescape, h]
  · subst h92; simp [parseChars_cons, unescape, h]
  · exact parseChars_unicodeEscape u (by omega) t s r h
  · exact parseChars_raw u h34 h92 (by omega) t s r h

theorem parseChars_quoteBody (s rest : List Nat) :
    parseChars (quoteBody s ++ 34 :: rest) = some (s, rest) := by
  induction s using quoteBody.induct with
  | case1 =>
    rw [quoteBody]
    exact parseChars_quote rest
  | case2 u hs =>
    have h0 := parseChars_quote rest
    rw [quoteBody_single, if_pos hs]
    simp only [isHighSurrogate, isLowSurrogate, Bool.or_eq_true, Bool.and_eq_true,
      decide_eq_true_eq] at hs
    exact parseChars_unicodeEscape u (by omega) _ _ _ h0
  | case3 u hs =>
    have h0 := parseChars_quote rest
    rw [quoteBody_single, if_neg hs]
    exact parseChars_escapeUnit u _ _ _ h0
  | case4 u v rest1 hu hv ih =>
    rw [quoteBody_cons_cons, if_pos hu, if_pos hv]
    simp only [List.cons_append]
    simp only [isHighSurrogate, isLowSurrogate, Bool.and_eq_true, decide_eq_true_eq] at hu hv
    exact parseChars_raw u (by omega) (by omega) (by omega) _ _ _
      (parseChars_raw v (by omega) (by omega) (by omega) _ _ _ ih)
  | case5 u v rest1 hu hv ih =>
    rw [quoteBody_cons_cons, if_pos hu, if_neg hv, List.append_assoc]
    simp only [isHighSurrogate, Bool.and_eq_true, decide_eq_true_eq] at hu
    exact parseChars_unicodeEscape u (by omega) _ _ _ ih
  | case6 u v rest1 hu hl ih =>
    rw [quoteBody_cons_cons, if_neg hu, if_pos hl, List.append_assoc]
    simp only [isLowSurrogate, Bool.and_eq_true, decide_eq_true_eq] at hl
    exact parseChars_unicodeEscape u (by omega) _ _ _ ih
  | case7 u v rest1 hu hl ih =>
    rw [quoteBody_cons_cons, if_neg hu, if_neg hl, List.append_assoc]
    exact parseChars_escapeUnit u _ _ _ ih

theorem natDigitsAux_spec (fuel : Nat) :
    ∀ (n : Nat) (acc : List Nat), n < fuel →
      ∃ ds : List Nat, natDigitsAux fuel n acc = ds ++ acc ∧
        (∀ d ∈ ds, isDigit d = true) ∧
        (∀ a : Nat, ds.foldl (fun acc d => acc * 10 + (d - 48)) a = a * 10 ^ ds.length + n) ∧
        (∃ d tl, ds = d :: tl ∧ (0 < n → d ≠ 48)) := by
  induction fuel with
  | zero => intro n acc h; omega
  | succ fuel ih =>
    intro n acc h
    by_cases h10 : n < 10
    · refine ⟨[48 + n], ?_, ?_, ?_, ⟨48 + n, [], rfl, by omega⟩⟩
      · simp [natDigitsAux, h10]
      · intro d hd
        simp only [List.mem_singleton] at hd
        subst hd
        simp only [isDigit, Bool.and_eq_true, decide_eq_true_eq]
        omega
      · intro a
        simp
    · obtain ⟨ds, h1, h2, h3, d, tl, h4, h5⟩ := ih (n / 10) ((48 + n % 10) :: acc) (by omega)
      refine ⟨ds ++ [48 + n % 10], ?_, ?_, ?_, ⟨d, tl ++ [48 + n % 10], by simp [h4], ?_⟩⟩
      · simp [natDigitsAux, h10, h1]
      · intro x hx
        rcases List.mem_append.mp hx with hx | hx
        · exact h2 x hx
        · simp only [List.mem_singleton] at hx
          subst hx
          simp only [isDigit, Bool.and_eq_true, decide_eq_true_eq]
          omega
      · intro a
        rw [List.foldl_append, h3 a]
        simp only [List.foldl_cons, List.foldl_nil, List.length_append, List.length_singleton,
          pow_succ]
        have : 48 + n % 10 - 48 = n % 10 := by omega
        rw [this]
        have hn : n / 10 * 10 + n % 10 = n := by omega
        calc (a * 10 ^ ds.length + n / 10) * 10 + n % 10
            = a * (10 ^ ds.length * 10) + (n / 10 * 10 + n % 10) := by ring
          _ = a * (10 ^ ds.length * 10) + n := by rw [hn]
      · intro _
        exact h5 (by omega)

theorem natDigits_spec (n : Nat) :
    (∀ d ∈ natDigits n, isDigit d = true) ∧ digitsValue (natDigits n) = n ∧
      ∃ d tl, natDigits n = d :: tl ∧ (0 < n → d ≠ 48) := by
  obtain ⟨ds, h1, h2, h3, h4⟩ := natDigitsAux_spec (n + 1) n [] (by omega)
  have e : natDigits n = ds := by
    unfold natDigits
    rw [h1, List.append_nil]
  rw [e]
  refine ⟨h2, ?_, h4⟩
  unfold digitsValue
  rw [h3 0]
  simp

theorem takeWhile_digits (ds r : List Nat) (h : ∀ d ∈ ds, isDigit d = true) :
    (ds ++ 44 :: r).takeWhile isDigit = ds ∧ (ds ++ 44 :: r).dropWhile isDigit = 44 :: r := by
  induction ds with
  | nil =>
    constructor
    · simp [List.takeWhile, isDigit]
    · simp [List.dropWhile, isDigit]
  | cons d ds ih =>
    have hd := h d (List.mem_cons_self _ _)
    have ih1 := ih (fun x hx => h x (List.mem_cons_of_mem _ hx))
    constructor
    · simp [List.takeWhile, hd, ih1.1]
    · simp [List.dropWhile, hd, ih1.2]

theorem parseUnsigned_natDigits (neg : Bool) (n : Nat) (r : List Nat) :
    parseUnsigned neg (natDigits n ++ 44 :: r)
      = some ({ neg := neg, mant := n, exp := 0 }, 44 :: r) := by
  obtain ⟨h1, h2, d, tl, h3, h4⟩ := natDigits_spec n
  have hi : parseInt (natDigits n ++ 44 :: r) = some (natDigits n, 44 :: r) := by
    rw [h3] at h1 ⊢
    simp only [List.cons_append, parseInt]
    by_cases h0 : d = 48
    · have hn : n = 0 := by
        by_contra hne
        exact h4 (Nat.pos_of_ne_zero hne) h0
      subst hn
      have : natDigits 0 = [48] := by decide
      rw [this] at h3
      simp only [List.cons.injEq] at h3
      rw [← h3.2, if_pos h0, h0]
      rfl
    · rw [if_neg h0, if_pos (h1 d (List.mem_cons_self _ _))]
      have ht := takeWhile_digits tl r (fun x hx => h1 x (List.mem_cons_of_mem _ hx))
      rw [ht.1, ht.2]
  unfold parseUnsigned
  rw [hi]
  simp only [parseFrac, parseExp]
  simp [h2]

theorem parseNumber_numberToString (i : Int) (r : List Nat) :
    parseNumber (numberToString i ++ 44 :: r)
      = some ({ neg := decide (i < 0), mant := i.natAbs, exp := 0 }, 44 :: r) := by
  unfold numberToString
  by_cases h : i < 0
  · rw [if_pos h]
    simp only [List.cons_append, parseNumber, if_true, h, decide_True]
    exact parseUnsigned_natDigits true _ r
  · rw [if_neg h]
    obtain ⟨h1, _, d, tl, h3, _⟩ := natDigits_spec i.natAbs
    have hd : d ≠ 45 := by
      have := h1 d (by rw [h3]; exact List.mem_cons_self _ _)
      simp only [isDigit, Bool.and_eq_true, decide_eq_true_eq] at this
      omega
    have e : parseNumber (natDigits i.natAbs ++ 44 :: r)
        = parseUnsigned false (natDigits i.natAbs ++ 44 :: r) := by
      rw [h3]
      simp only [List.cons_append, parseNumber, if_neg hd]
    rw [e, parseUnsigned_natDigits]
    simp [h]

theorem stringifyTodo_eq (t : Todo) :
    stringifyTodo t = 123 :: 34 :: 105 :: 100 :: 34 :: 58 :: (numberToString t.id ++
      44 :: 34 :: 116 :: 101 :: 120 :: 116 :: 34 :: 58 :: 34 :: (quoteBody t.text ++
      34 :: 44 :: 34 :: 99 :: 111 :: 109 :: 112 :: 108 :: 101 :: 116 :: 101 :: 100 :: 34 :: 58 ::
      (boolToString t.completed ++ [125]))) := by
  have e1 : utf16 "\x7b\"id\":" = [123, 34, 105, 100, 34, 58] := by decide
  have e2 : utf16 ",\"text\":" = [44, 34, 116, 101, 120, 116, 34, 58] := by decide
  have e3 : utf16 ",\"completed\":"
      = [44, 34, 99, 111, 109, 112, 108, 101, 116, 101, 100, 34, 58] := by decide
  have e4 : utf16 "\x7d" = [125] := by decide
  unfold stringifyTodo quoteJSONString
  rw [e1, e2, e3, e4]
  simp only [List.append_assoc, List.cons_append, List.nil_append]

theorem parseValue_succ (fuel : Nat) (s : List Nat) :
    parseValue (fuel + 1) s =
      match s with
      | [] => .error .syntaxError
      | u :: rest =>
        if u = 110 then expectLit [117, 108, 108] .null rest
        else if u = 116 then expectLit [114, 117, 101] (.bool true) rest
        else if u = 102 then expectLit [97, 108, 115, 101] (.bool false) rest
        else if u = 34 then
          match parseChars rest with
          | some (str, r) => .ok (.str str, r)
          | none => .error .syntaxError
        else if u = 91 then
          match skipWs rest with
          | [] => .error .syntaxError
          | c :: r =>
            if c = 93 then .ok (.arr [], r)
            else
              match parseElems fuel (c :: r) with
              | .ok (xs, r1) => .ok (.arr xs, r1)
              | .error e => .error e
        else if u = 123 then
          match skipWs rest with
          | [] => .error .syntaxError
          | c :: r =>
            if c = 125 then .ok (.obj [], r)
            else
              match parseMembers fuel (c :: r) with
              | .ok (ms, r1) => .ok (.obj ms, r1)
              | .error e => .error e
        else
          match parseNumber s with
          | some (n, r) => .ok (.num n, r)
          | none => .error .syntaxError := by
  rw [parseValue.eq_def]

theorem parseElems_succ (fuel : Nat) (s : List Nat) :
    parseElems (fuel + 1) s =
      match parseValue fuel s with
      | .error e => .error e
      | .ok (v, r) =>
        match skipWs r with
        | [] => .error .syntaxError
        | c :: r1 =>
          if c = 93 then .ok ([v], r1)
          else if c = 44 then
            match parseElems fuel (skipWs r1) with
            | .ok (vs, r2) => .ok (v :: vs, r2)
            | .error e => .error e
          else .error .syntaxError := by
  rw [parseElems]

theorem parseMembers_succ (fuel : Nat) (s : List Nat) :
    parseMembers (fuel + 1) s =
      match s with
      | [] => .error .syntaxError
      | q :: s1 =>
        if q = 34 then
          match parseChars s1 with
          | none => .error .syntaxError
          | some (key, r) =>
            match skipWs r with
            | [] => .error .syntaxError
            | c :: r1 =>
              if c = 58 then
                match parseValue fuel (skipWs r1) with
                | .error e => .error e
                | .ok (v, r2) =>
                  match skipWs r2 with
                  | [] => .error .syntaxError
                  | c2 :: r3 =>
                    if c2 = 125 then .ok ([(key, v)], r3)
                    else if c2 = 44 then
                      match parseMembers fuel (skipWs r3) with
                      | .ok (ms, r4) => .ok ((key, v) :: ms, r4)
                      | .error e => .error e
                    else .error .syntaxError
              else .error .syntaxError
        else .error .syntaxError := by
  rw [parseMembers.eq_def]

theorem skipWs_cons_of_not (u : Nat) (r : List Nat) (h : isJsonWhiteSpace u = false) :
    skipWs (u :: r) = u :: r := by
  simp [skipWs, List.dropWhile, h]

theorem parseValue_bool (f : Nat) (b : Bool) (r : List Nat) :
    parseValue (f + 1) (boolToString b ++ r) = .ok (.bool b, r) := by
  have e1 : utf16 "true" = [116, 114, 117, 101] := by decide
  have e2 : utf16 "false" = [102, 97, 108, 115, 101] := by decide
  cases b
  · simp only [boolToString, Bool.false_eq_true, if_false, e2, List.cons_append, List.nil_append,
      parseValue_succ]
    simp [expectLit, List.isPrefixOf]
  · simp only [boolToString, if_true, e1, List.cons_append, List.nil_append, parseValue_succ]
    simp [expectLit, List.isPrefixOf]

theorem skipWs_bool (b : Bool) (r : List Nat) :
    skipWs (boolToString b ++ r) = boolToString b ++ r := by
  have e1 : utf16 "true" = [116, 114, 117, 101] := by decide
  have e2 : utf16 "false" = [102, 97, 108, 115, 101] := by decide
  cases b
  · simp only [boolToString, Bool.false_eq_true, if_false, e2, List.cons_append]
    rfl
  · simp only [boolToString, if_true, e1, List.cons_append]
    rfl

theorem parseValue_string (f : Nat) (s r : List Nat) :
    parseValue (f + 1) (34 :: (quoteBody s ++ 34 :: r)) = .ok (.str s, r) := by
  rw [parseValue_succ]
  simp [parseChars_quoteBody]

theorem numberToString_head (i : Int) :
    ∃ d tl, numberToString i = d :: tl ∧ (d = 45 ∨ isDigit d = true) := by
  unfold numberToString
  by_cases h : i < 0
  · rw [if_pos h]
    exact ⟨45, _, rfl, Or.inl rfl⟩
  · rw [if_neg h]
    obtain ⟨h1, _, d, tl, h3, _⟩ := natDigits_spec i.natAbs
    exact ⟨d, tl, h3, Or.inr (h1 d (by rw [h3]; exact List.mem_cons_self _ _))⟩

theorem parseValue_number (f : Nat) (i : Int) (r : List Nat) :
    parseValue (f + 1) (numberToString i ++ 44 :: r)
      = .ok (.num { neg := decide (i < 0), mant := i.natAbs, exp := 0 }, 44 :: r) := by
  obtain ⟨d, tl, h1, h2⟩ := numberToString_head i
  have hd : d ≠ 110 ∧ d ≠ 116 ∧ d ≠ 102 ∧ d ≠ 34 ∧ d ≠ 91 ∧ d ≠ 123 := by
    rcases h2 with h2 | h2
    · subst h2
      decide
    · simp only [isDigit, Bool.and_eq_true, decide_eq_true_eq] at h2
      omega
  have hp := parseNumber_numberToString i r
  rw [h1] at hp ⊢
  rw [List.cons_append] at hp ⊢
  rw [parseValue_succ]
  simp only [if_neg hd.1, if_neg hd.2.1, if_neg hd.2.2.1, if_neg hd.2.2.2.1, if_neg hd.2.2.2.2.1,
    if_neg hd.2.2.2.2.2, hp]

theorem skipWs_number (i : Int) (r : List Nat) :
    skipWs (numberToString i ++ r) = numberToString i ++ r := by
  obtain ⟨d, tl, h1, h2⟩ := numberToString_head i
  rw [h1, List.cons_append]
  apply skipWs_cons_of_not
  rcases h2 with h2 | h2
  · subst h2
    rfl
  · simp only [isDigit, Bool.and_eq_true, decide_eq_true_eq] at h2
    simp only [isJsonWhiteSpace, Bool.or_eq_false_iff, beq_eq_false_iff_ne]
    omega

theorem parseValue_stringifyTodo (f : Nat) (t : Todo) (r : List Nat) :
    parseValue (f + 5) (stringifyTodo t ++ r) = .ok (encodeTodo t, r) := by
  have k1 : utf16 "id" = [105, 100] := by decide
  have k2 : utf16 "text" = [116, 101, 120, 116] := by decide
  have k3 : utf16 "completed" = [99, 111, 109, 112, 108, 101, 116, 101, 100] := by decide
  have m3 : parseMembers (f + 2)
      (34 :: 99 :: 111 :: 109 :: 112 :: 108 :: 101 :: 116 :: 101 :: 100 :: 34 :: 58 ::
        (boolToString t.completed ++ 125 :: r))
      = .ok ([(utf16 "completed", .bool t.completed)], r) := by
    rw [parseMembers_succ]
    simp only [if_true, parseChars_cons, Nat.reduceEqDiff, if_false, Nat.reduceLT,
      skipWs_cons_of_not 58 _ rfl, skipWs_bool, parseValue_bool,
      skipWs_cons_of_not 125 _ rfl, k3]
  have m2 : parseMembers (f + 3)
      (34 :: 116 :: 101 :: 120 :: 116 :: 34 :: 58 :: 34 :: (quoteBody t.text ++
        34 :: 44 :: 34 :: 99 :: 111 :: 109 :: 112 :: 108 :: 101 :: 116 :: 101 :: 100 :: 34 :: 58 ::
        (boolToString t.completed ++ 125 :: r)))
      = .ok ([(utf16 "text", .str t.text), (utf16 "completed", .bool t.completed)], r) := by
    rw [parseMembers_succ]
    simp only [if_true, parseChars_cons, Nat.reduceEqDiff, if_false, Nat.reduceLT,
      skipWs_cons_of_not 58 _ rfl, skipWs_cons_of_not 34 _ rfl, parseValue_string,
      skipWs_cons_of_not 44 _ rfl, m3, k2]
  have m1 : parseMembers (f + 4)
      (34 :: 105 :: 100 :: 34 :: 58 :: (numberToString t.id ++
        44 :: 34 :: 116 :: 101 :: 120 :: 116 :: 34 :: 58 :: 34 :: (quoteBody t.text ++
        34 :: 44 :: 34 :: 99 :: 111 :: 109 :: 112 :: 108 :: 101 :: 116 :: 101 :: 100 :: 34 :: 58 ::
        (boolToString t.completed ++ 125 :: r))))
      = .ok ([(utf16 "id", .num { neg := decide (t.id < 0), mant := t.id.natAbs, exp := 0 }),
          (utf16 "text", .str t.text), (utf16 "completed", .bool t.completed)], r) := by
    rw [parseMembers_succ]
    simp only [if_true, parseChars_cons, Nat.reduceEqDiff, if_false, Nat.reduceLT,
      skipWs_cons_of_not 58 _ rfl, skipWs_number, parseValue_number,
      skipWs_cons_of_not 44 _ rfl, skipWs_cons_of_not 34 _ rfl, m2, k1]
  rw [stringifyTodo_eq, parseValue_succ]
  simp only [List.cons_append, List.append_assoc, List.nil_append, Nat.reduceEqDiff, if_false,
    if_true, skipWs_cons_of_not 34 _ rfl, m1, encodeTodo]

theorem stringifyElems_cons_cons (t u : Todo) (rest : List Todo) :
    stringifyElems (t :: u :: rest) = stringifyTodo t ++ 44 :: stringifyElems (u :: rest) := by
  rw [stringifyElems]

theorem stringifyElems_head (t : Todo) (ts : List Todo) :
    ∃ tl, stringifyElems (t :: ts) = 123 :: tl ∧ ts.length ≤ tl.length := by
  induction ts generalizing t with
  | nil =>
    rw [stringifyElems, stringifyTodo_eq]
    exact ⟨_, rfl, Nat.zero_le _⟩
  | cons u ts ih =>
    obtain ⟨tl, h1, h2⟩ := ih u
    rw [stringifyElems_cons_cons, stringifyTodo_eq, List.cons_append, h1]
    refine ⟨_, rfl, ?_⟩
    simp only [List.length_cons, List.length_append]
    omega

theorem parseElems_stringifyElems (ts : List Todo) :
    ∀ (t : Todo) (f : Nat) (r : List Nat),
      parseElems (f + ts.length + 6) (stringifyElems (t :: ts) ++ 93 :: r)
        = .ok ((t :: ts).map encodeTodo, r) := by
  induction ts with
  | nil =>
    intro t f r
    have hv := parseValue_stringifyTodo f t (93 :: r)
    rw [stringifyElems]
    show parseElems (f + 5 + 1) _ = _
    rw [parseElems_succ, hv]
    simp only [skipWs_cons_of_not 93 _ rfl, if_true, List.map_cons, List.map_nil]
  | cons u ts ih =>
    intro t f r
    have hv := parseValue_stringifyTodo (f + ts.length + 1) t
      (44 :: (stringifyElems (u :: ts) ++ 93 :: r))
    obtain ⟨tl, h1, _⟩ := stringifyElems_head u ts
    have hs : skipWs (stringifyElems (u :: ts) ++ 93 :: r) = stringifyElems (u :: ts) ++ 93 :: r := by
      rw [h1, List.cons_append]
      exact skipWs_cons_of_not 123 _ rfl
    rw [stringifyElems_cons_cons, List.append_assoc, List.cons_append]
    show parseElems (f + ts.length + 1 + 5 + 1) _ = _
    rw [parseElems_succ, hv]
    simp only [skipWs_cons_of_not 44 _ rfl, Nat.reduceEqDiff, if_false, if_true, hs]
    have e : f + ts.length + 1 + 5 = f + ts.length + 6 := by omega
    rw [e, ih u f r]
    simp only [List.map_cons]

/-- Round trip: `JSON.parse` accepts what `JSON.stringify` writes for a list
of todos and returns that list, as a value. -/
theorem parse_stringify (ts : List Todo) :
    JSON.parse (JSON.stringify ts) = .ok (encodeTodos ts) := by
  cases ts with
  | nil => rfl
  | cons t ts =>
    obtain ⟨tl, h1, h2⟩ := stringifyElems_head t ts
    have hlen : ∃ g, 2 * (JSON.stringify (t :: ts)).length + 2 = g + ts.length + 6 + 1 := by
      refine ⟨2 * (JSON.stringify (t :: ts)).length + 2 - (ts.length + 7), ?_⟩
      simp only [JSON.stringify, h1, List.length_cons, List.length_append]
      omega
    obtain ⟨g, hg⟩ := hlen
    have hp := parseElems_stringifyElems ts t g []
    unfold JSON.parse
    rw [hg]
    have hs : skipWs (JSON.stringify (t :: ts)) = 91 :: (stringifyElems (t :: ts) ++ [93]) :=
      skipWs_cons_of_not 91 _ rfl
    rw [hs, parseValue_succ]
    have hs2 : skipWs (stringifyElems (t :: ts) ++ [93]) = 123 :: (tl ++ [93]) := by
      rw [h1, List.cons_append]
      exact skipWs_cons_of_not 123 _ rfl
    simp only [Nat.reduceEqDiff, if_false, if_true, hs2]
    rw [← List.cons_append, ← h1, hp]
    simp [skipWs, encodeTodos]

theorem toTodo_encodeTodo (t : Todo) : toTodo (encodeTodo t) = some t := by
  obtain ⟨i, s, b⟩ := t
  simp only [encodeTodo, toTodo, and_self, if_true, JsNumber.toInt?, le_refl, Int.natAbs_zero,
    pow_zero, mul_one]
  by_cases h : i < 0
  · have : -((i.natAbs : Nat) : Int) = i := by omega
    simp only [h, decide_True, if_true, this]
  · have : ((i.natAbs : Nat) : Int) = i := by omega
    simp only [h, decide_False, Bool.false_eq_true, if_false, this]

theorem toTodoList_encodeTodo (ts : List Todo) :
    toTodoList (ts.map encodeTodo) = some ts := by
  induction ts with
  | nil => rfl
  | cons t ts ih =>
    simp only [List.map_cons, toTodoList, toTodo_encodeTodo, ih]

theorem toTodos_encodeTodos (ts : List Todo) : toTodos (encodeTodos ts) = some ts :=
  toTodoList_encodeTodo ts

/-- The timeout callback in a state whose stored item is the serialisation
of `todos`: nothing is thrown, `todos` and the stored item stay as they are,
`isLoading` becomes false. -/
theorem timerCallback_of_storage (st : State)
    (hinv : st.storage = some (JSON.stringify st.todos)) :
    timerCallback st = .loaded { st with isLoading := false, timerPending := false } := by
  unfold timerCallback savedTodos storedText
  rw [hinv]
  simp only [parse_stringify]
  have ht : (encodeTodos st.todos).truthy = true := rfl
  simp only [ht, if_true, toTodos_encodeTodos, setTodos, saveEffect, ← hinv]

/-! ## Identifiers along a run -/

theorem addTimes_cons (e : Event) (es : List Event) :
    addTimes (e :: es) = addTimes [e] ++ addTimes es := by
  cases e <;> rfl

theorem step_ids (st st1 : State) (e : Event)
    (hinv : st.storage = some (JSON.stringify st.todos)) (h : step st e = some st1) :
    (st1.todos.map (fun t => t.id)).Sublist (st.todos.map (fun t => t.id) ++ addTimes [e]) := by
  cases e with
  | timer =>
    simp only [step] at h
    by_cases hp : st.timerPending = true
    · rw [if_pos hp, timerCallback_of_storage st hinv] at h
      simp only [Option.some.injEq] at h
      rw [← h]
      simp [addTimes]
    · rw [if_neg hp] at h
      simp at h
  | setInput value =>
    simp only [step, Option.some.injEq] at h
    rw [← h]
    simp [addTimes]
  | addTodo now =>
    simp only [step, Option.some.injEq] at h
    rw [← h]
    unfold addTodo
    split
    · simp [setTodos, saveEffect, addTimes]
    · simp [addTimes]
  | deleteTodo id =>
    simp only [step, Option.some.injEq] at h
    rw [← h]
    simp only [deleteTodo, setTodos, saveEffect, addTimes, List.append_nil]
    exact (List.filter_sublist _).map _
  | toggleComplete id =>
    simp only [step, Option.some.injEq] at h
    rw [← h, toggleComplete_todos, List.map_map]
    have e : ((fun t : Todo => t.id) ∘ fun todo : Todo =>
        if todo.id = id then { todo with completed := !todo.completed } else todo)
          = fun t => t.id := by
      funext t
      by_cases ht : t.id = id
      · simp [ht]
      · simp [ht]
    rw [e]
    simp [addTimes]
  | setFilter value =>
    simp only [step, Option.some.injEq] at h
    rw [← h]
    simp [addTimes]
  | toggleDarkMode =>
    simp only [step, Option.some.injEq] at h
    rw [← h]
    simp [addTimes]

theorem run_ids (es : List Event) (st st1 : State)
    (hinv : st.storage = some (JSON.stringify st.todos)) (h : run st es = some st1) :
    (st1.todos.map (fun t => t.id)).Sublist (st.todos.map (fun t => t.id) ++ addTimes es) := by
  induction es generalizing st with
  | nil =>
    simp only [run, Option.some.injEq] at h
    rw [← h]
    simp [addTimes]
  | cons e es ih =>
    simp only [run] at h
    cases hs : step st e with
    | none => simp [hs] at h
    | some st2 =>
      rw [hs] at h
      have h1 := ih st2 (step_storage st st2 e hinv hs) h
      have h2 := step_ids st st2 e hinv hs
      rw [addTimes_cons, ← List.append_assoc]
      exact h1.trans (List.Sublist.append h2 (List.Sublist.refl _))

/-- The ids of the todos of a reachable state are, in order, a subsequence of
the clock readings taken by the `addTodo` calls that led to it. -/
theorem ids_sublist_addTimes (stored : Option JsString) (es : List Event) (st : State)
    (h : run (mount stored) es = some st) :
    (st.todos.map (fun t => t.id)).Sublist (addTimes es) := by
  have := run_ids es (mount stored) st rfl h
  simpa [mount, saveEffect, loadEffect, initialState] using this

theorem length_filter_ne_add_countP (todos : List Todo) (id : Int) :
    (todos.filter (fun t => t.id != id)).length + todos.countP (fun t => decide (t.id = id))
      = todos.length := by
  induction todos with
  | nil => rfl
  | cons t ts ih =>
    by_cases h : t.id = id
    · simp [List.filter_cons, List.countP_cons, h]
      omega
    · simp [List.filter_cons, List.countP_cons, h]
      omega

theorem filter_ne_eq_erase (todos : List Todo) (id : Int)
    (hnd : (todos.map (fun t => t.id)).Nodup) (t : Todo) (ht : t ∈ todos) (hid : t.id = id) :
    todos.filter (fun x => x.id != id) = todos.erase t := by
  induction todos with
  | nil => simp at ht
  | cons x xs ih =>
    rw [List.map_cons, List.nodup_cons] at hnd
    by_cases hx : x = t
    · subst hx
      have hrest : xs.filter (fun y => y.id != id) = xs := by
        rw [List.filter_eq_self]
        intro y hy
        have : y.id ≠ id := by
          intro hyid
          apply hnd.1
          rw [hid, ← hyid]
          exact List.mem_map_of_mem _ hy
        simpa using this
      simp [List.filter_cons, hid, hrest]
    · have htx : t ∈ xs := by
        rcases List.mem_cons.mp ht with h | h
        · exact absurd h.symm hx
        · exact h
      have hxid : x.id ≠ id := by
        intro hxid
        apply hnd.1
        rw [hxid, ← hid]
        exact List.mem_map_of_mem _ htx
      rw [List.erase_cons_tail (by simpa using hx)]
      simp only [List.filter_cons, bne_iff_ne, ne_eq, hxid, not_false_eq_true, if_true]
      rw [ih hnd.2 htx]

/-- C5 (as stated, refuted): two `addTodo` calls at the same clock reading 5
give two todos with id 5, and `deleteTodo(5)` then removes both: the list
shrinks from two elements to none. -/
theorem deleteTodo_same_tick_counterexample :
    run (mount none)
        [.timer, .setInput (utf16 "a"), .addTodo 5, .setInput (utf16 "b"), .addTodo 5]
      = some ⟨[⟨5, utf16 "a", false⟩, ⟨5, utf16 "b", false⟩], [], "all", false, false,
          some (JSON.stringify [⟨5, utf16 "a", false⟩, ⟨5, utf16 "b", false⟩]), false⟩ ∧
    (deleteTodo 5 ⟨[⟨5, utf16 "a", false⟩, ⟨5, utf16 "b", false⟩], [], "all", false, false,
      some (JSON.stringify [⟨5, utf16 "a", false⟩, ⟨5, utf16 "b", false⟩]), false⟩).todos = [] ∧
    ¬ ((deleteTodo 5 ⟨[⟨5, utf16 "a", false⟩, ⟨5, utf16 "b", false⟩], [], "all", false, false,
      some (JSON.stringify [⟨5, utf16 "a", false⟩, ⟨5, utf16 "b", false⟩]), false⟩).todos.length + 1
        = (⟨[⟨5, utf16 "a", false⟩, ⟨5, utf16 "b", false⟩], [], "all", false, false,
      some (JSON.stringify [⟨5, utf16 "a", false⟩, ⟨5, utf16 "b", false⟩]), false⟩ :
        State).todos.length) := by
  decide

/-- C5 (amended): `deleteTodo(id)` removes every todo that carries `id`, so
the list shrinks by the number of todos with that id. In a state reached from
the mounted component by a sequence of events whose `addTodo` calls took
pairwise distinct clock readings, the ids are pairwise distinct, and for an id
carried by some todo `deleteTodo(id)` removes exactly that one todo: the list
is one element shorter. -/
theorem deleteTodo_removes_one (stored : Option JsString) (es : List Event) (st : State)
    (id : Int) (hrun : run (mount stored) es = some st) (hclock : (addTimes es).Nodup)
    (hid : ∃ t ∈ st.todos, t.id = id) :
    (deleteTodo id st).todos.length + st.todos.countP (fun t => decide (t.id = id))
      = st.todos.length ∧
    (st.todos.map (fun t => t.id)).Nodup ∧
    (deleteTodo id st).todos.length + 1 = st.todos.length ∧
    ∃ t ∈ st.todos, t.id = id ∧ (deleteTodo id st).todos = st.todos.erase t := by
  have hnd : (st.todos.map (fun t => t.id)).Nodup :=
    (ids_sublist_addTimes stored es st hrun).nodup hclock
  obtain ⟨t, ht, htid⟩ := hid
  have he : (deleteTodo id st).todos = st.todos.erase t :=
    filter_ne_eq_erase st.todos id hnd t ht htid
  refine ⟨length_filter_ne_add_countP st.todos id, hnd, ?_, t, ht, htid, he⟩
  rw [he, List.length_erase_of_mem ht]
  have : 0 < st.todos.length := List.length_pos_of_mem ht
  omega

theorem deleteTodo_removes_one_witness :
    (deleteTodo 5 ⟨[⟨5, utf16 "a", false⟩, ⟨6, utf16 "b", false⟩], [], "all", false, false,
        some (JSON.stringify [⟨5, utf16 "a", false⟩, ⟨6, utf16 "b", false⟩]), false⟩).todos.length
      + 1 = (⟨[⟨5, utf16 "a", false⟩, ⟨6, utf16 "b", false⟩], [], "all", false, false,
        some (JSON.stringify [⟨5, utf16 "a", false⟩, ⟨6, utf16 "b", false⟩]), false⟩ :
          State).todos.length :=
  (deleteTodo_removes_one none
    [.timer, .setInput (utf16 "a"), .addTodo 5, .setInput (utf16 "b"), .addTodo 6]
    ⟨[⟨5, utf16 "a", false⟩, ⟨6, utf16 "b", false⟩], [], "all", false, false,
      some (JSON.stringify [⟨5, utf16 "a", false⟩, ⟨6, utf16 "b", false⟩]), false⟩ 5
    (by decide) (by decide) ⟨⟨5, utf16 "a", false⟩, by decide, rfl⟩).2.2.1


/-! ## The recursion bound of `JSON.parse` is never reached -/

theorem skipWs_length (s : List Nat) : (skipWs s).length ≤ s.length :=
  (List.dropWhile_sublist _).length_le

theorem dropWhile_length (p : Nat → Bool) (s : List Nat) : (s.dropWhile p).length ≤ s.length :=
  (List.dropWhile_sublist _).length_le

theorem parseChars_nil : parseChars [] = none := by
  rw [parseChars.eq_def]

theorem parseChars_length (n : Nat) :
    ∀ (s : List Nat), s.length ≤ n → ∀ x r, parseChars s = some (x, r) → r.length ≤ s.length := by
  induction n with
  | zero =>
    intro s hs x r h
    cases s with
    | nil => simp [parseChars_nil] at h
    | cons u rest => simp at hs
  | succ n ih =>
    intro s hs x r h
    cases s with
    | nil => simp [parseChars_nil] at h
    | cons u rest =>
      rw [parseChars_cons] at h
      simp only [List.length_cons] at hs ⊢
      split_ifs at h
      · simp only [Option.some.injEq, Prod.mk.injEq] at h
        rw [← h.2]
        omega
      · split at h
        · simp at h
        · rename_i e rest1
          split_ifs at h
          · split at h
            · rename_i a b c d rest2
              split at h
              · split at h
                · rename_i s1 r1 hp
                  simp only [Option.some.injEq, Prod.mk.injEq] at h
                  have := ih rest2 (by simp only [List.length_cons] at hs; omega) s1 r1 hp
                  rw [← h.2]
                  simp only [List.length_cons]
                  omega
                · simp at h
              · simp at h
            · simp at h
          · split at h
            · split at h
              · rename_i s1 r1 hp
                simp only [Option.some.injEq, Prod.mk.injEq] at h
                have := ih rest1 (by simp only [List.length_cons] at hs; omega) s1 r1 hp
                rw [← h.2]
                simp only [List.length_cons]
                omega
              · simp at h
            · simp at h
      · split at h
        · rename_i s1 r1 hp
          simp only [Option.some.injEq, Prod.mk.injEq] at h
          have := ih rest (by omega) s1 r1 hp
          rw [← h.2]
          omega
        · simp at h

theorem parseExpDigits_length (neg : Bool) (s : List Nat) (e : Int) (r : List Nat)
    (h : parseExpDigits neg s = some (e, r)) : r.length ≤ s.length := by
  unfold parseExpDigits at h
  by_cases h0 : s.takeWhile isDigit = []
  · rw [if_pos h0] at h
    simp at h
  · rw [if_neg h0] at h
    simp only [Option.some.injEq, Prod.mk.injEq] at h
    rw [← h.2]
    exact dropWhile_length _ _

theorem parseExp_length (s : List Nat) (e : Int) (r : List Nat)
    (h : parseExp s = some (e, r)) : r.length ≤ s.length := by
  unfold parseExp at h
  split at h
  · simp only [Option.some.injEq, Prod.mk.injEq] at h
    rw [← h.2]
  · rename_i c rest
    split_ifs at h
    · split at h
      · simp at h
      · rename_i sg rest1
        split_ifs at h
        · have := parseExpDigits_length _ _ _ _ h
          simp only [List.length_cons]
          omega
        · have := parseExpDigits_length _ _ _ _ h
          simp only [List.length_cons]
          omega
        · have := parseExpDigits_length _ _ _ _ h
          simp only [List.length_cons] at this ⊢
          omega
    · simp only [Option.some.injEq, Prod.mk.injEq] at h
      rw [← h.2]

theorem parseFrac_length (s ds r : List Nat)
    (h : parseFrac s = some (ds, r)) : r.length ≤ s.length := by
  unfold parseFrac at h
  split at h
  · rename_i rest
    split_ifs at h
    simp only [Option.some.injEq, Prod.mk.injEq] at h
    rw [← h.2]
    have := dropWhile_length isDigit rest
    simp only [List.length_cons]
    omega
  · simp only [Option.some.injEq, Prod.mk.injEq] at h
    rw [← h.2]

theorem parseInt_length (s ds r : List Nat)
    (h : parseInt s = some (ds, r)) : r.length ≤ s.length := by
  unfold parseInt at h
  split at h
  · simp at h
  · rename_i d rest
    split_ifs at h
    · simp only [Option.some.injEq, Prod.mk.injEq] at h
      rw [← h.2]
      simp
    · simp only [Option.some.injEq, Prod.mk.injEq] at h
      rw [← h.2]
      have := dropWhile_length isDigit rest
      simp only [List.length_cons]
      omega

theorem parseUnsigned_length (neg : Bool) (s : List Nat) (n : JsNumber) (r : List Nat)
    (h : parseUnsigned neg s = some (n, r)) : r.length ≤ s.length := by
  unfold parseUnsigned at h
  split at h
  · simp at h
  · rename_i ids r1 h1
    split at h
    · simp at h
    · rename_i fds r2 h2
      split at h
      · simp at h
      · rename_i e r3 h3
        simp only [Option.some.injEq, Prod.mk.injEq] at h
        rw [← h.2]
        have := parseInt_length _ _ _ h1
        have := parseFrac_length _ _ _ h2
        have := parseExp_length _ _ _ h3
        omega

theorem parseNumber_length (s : List Nat) (n : JsNumber) (r : List Nat)
    (h : parseNumber s = some (n, r)) : r.length ≤ s.length := by
  unfold parseNumber at h
  split at h
  · simp at h
  · rename_i u rest
    split_ifs at h
    · have := parseUnsigned_length _ _ _ _ h
      simp only [List.length_cons]
      omega
    · exact parseUnsigned_length _ _ _ _ h

theorem expectLit_spec (lit : List Nat) (v : JsValue) (s : List Nat) :
    expectLit lit v s ≠ .error .fuel ∧
      ∀ w r, expectLit lit v s = .ok (w, r) → r.length ≤ s.length := by
  unfold expectLit
  split_ifs
  · refine ⟨by simp, ?_⟩
    intro w r h
    simp only [Except.ok.injEq, Prod.mk.injEq] at h
    rw [← h.2]
    simp
  · refine ⟨by simp, ?_⟩
    intro w r h
    simp at h

theorem parseValue_zero (s : List Nat) : parseValue 0 s = .error .fuel := by
  rw [parseValue.eq_def]

theorem parseElems_zero (s : List Nat) : parseElems 0 s = .error .fuel := by
  rw [parseElems.eq_def]

theorem parseMembers_zero (s : List Nat) : parseMembers 0 s = .error .fuel := by
  rw [parseMembers.eq_def]

theorem parse_fuel_aux (f : Nat) :
    (∀ s, (∀ v r, parseValue f s = .ok (v, r) → r.length ≤ s.length) ∧
      (2 * s.length + 1 ≤ f → parseValue f s ≠ .error .fuel)) ∧
    (∀ s, (∀ v r, parseElems f s = .ok (v, r) → r.length ≤ s.length) ∧
      (2 * s.length + 2 ≤ f → parseElems f s ≠ .error .fuel)) ∧
    (∀ s, (∀ v r, parseMembers f s = .ok (v, r) → r.length ≤ s.length) ∧
      (2 * s.length + 2 ≤ f → parseMembers f s ≠ .error .fuel)) := by
  induction f with
  | zero =>
    refine ⟨fun s => ?_, fun s => ?_, fun s => ?_⟩
    · rw [parseValue_zero]
      exact ⟨fun v r h => by simp at h, fun h => by omega⟩
    · rw [parseElems_zero]
      exact ⟨fun v r h => by simp at h, fun h => by omega⟩
    · rw [parseMembers_zero]
      exact ⟨fun v r h => by simp at h, fun h => by omega⟩
  | succ f ih =>
    obtain ⟨ihV, ihE, ihM⟩ := ih
    refine ⟨fun s => ?_, fun s => ?_, fun s => ?_⟩
    · rw [parseValue_succ]
      cases s with
      | nil => exact ⟨fun v r h => by simp at h, fun _ => by simp⟩
      | cons u rest =>
        simp only [List.length_cons]
        have hws := skipWs_length rest
        split_ifs
        · have hl := expectLit_spec [117, 108, 108] .null rest
          exact ⟨fun v r h => by have := hl.2 v r h; omega, fun _ => hl.1⟩
        · have hl := expectLit_spec [114, 117, 101] (.bool true) rest
          exact ⟨fun v r h => by have := hl.2 v r h; omega, fun _ => hl.1⟩
        · have hl := expectLit_spec [97, 108, 115, 101] (.bool false) rest
          exact ⟨fun v r h => by have := hl.2 v r h; omega, fun _ => hl.1⟩
        · split
          · rename_i str r1 hp
            have := parseChars_length rest.length rest (le_refl _) str r1 hp
            refine ⟨fun v r h => ?_, fun _ => by simp⟩
            simp only [Except.ok.injEq, Prod.mk.injEq] at h
            rw [← h.2]
            omega
          · exact ⟨fun v r h => by simp at h, fun _ => by simp⟩
        · split
          · exact ⟨fun v r h => by simp at h, fun _ => by simp⟩
          · rename_i c r1 hsk
            rw [hsk] at hws
            simp only [List.length_cons] at hws
            split_ifs
            · refine ⟨fun v r h => ?_, fun _ => by simp⟩
              simp only [Except.ok.injEq, Prod.mk.injEq] at h
              rw [← h.2]
              omega
            · have hE := ihE (c :: r1)
              simp only [List.length_cons] at hE
              split
              · rename_i xs r2 hp
                have := hE.1 xs r2 hp
                refine ⟨fun v r h => ?_, fun _ => by simp⟩
                simp only [Except.ok.injEq, Prod.mk.injEq] at h
                rw [← h.2]
                omega
              · rename_i e hp
                refine ⟨fun v r h => by simp at h, fun hf => ?_⟩
                have := hE.2 (by omega)
                intro he
                simp only [Except.error.injEq] at he
                rw [he] at hp
                exact this hp
        · split
          · exact ⟨fun v r h => by simp at h, fun _ => by simp⟩
          · rename_i c r1 hsk
            rw [hsk] at hws
            simp only [List.length_cons] at hws
            split_ifs
            · refine ⟨fun v r h => ?_, fun _ => by simp⟩
              simp only [Except.ok.injEq, Prod.mk.injEq] at h
              rw [← h.2]
              omega
            · have hM := ihM (c :: r1)
              simp only [List.length_cons] at hM
              split
              · rename_i xs r2 hp
                have := hM.1 xs r2 hp
                refine ⟨fun v r h => ?_, fun _ => by simp⟩
                simp only [Except.ok.injEq, Prod.mk.injEq] at h
                rw [← h.2]
                omega
              · rename_i e hp
                refine ⟨fun v r h => by simp at h, fun hf => ?_⟩
                have := hM.2 (by omega)
                intro he
                simp only [Except.error.injEq] at he
                rw [he] at hp
                exact this hp
        · split
          · rename_i n r1 hp
            have := parseNumber_length _ _ _ hp
            simp only [List.length_cons] at this
            refine ⟨fun v r h => ?_, fun _ => by simp⟩
            simp only [Except.ok.injEq, Prod.mk.injEq] at h
            rw [← h.2]
            omega
          · exact ⟨fun v r h => by simp at h, fun _ => by simp⟩
    · rw [parseElems_succ]
      have hV := ihV s
      split
      · rename_i e hp
        refine ⟨fun v r h => by simp at h, fun hf => ?_⟩
        have := hV.2 (by omega)
        intro he
        simp only [Except.error.injEq] at he
        rw [he] at hp
        exact this hp
      · rename_i v1 r1 hp
        have h1 := hV.1 v1 r1 hp
        have hws := skipWs_length r1
        split
        · exact ⟨fun v r h => by simp at h, fun _ => by simp⟩
        · rename_i c r2 hsk
          rw [hsk] at hws
          simp only [List.length_cons] at hws
          split_ifs
          · refine ⟨fun v r h => ?_, fun _ => by simp⟩
            simp only [Except.ok.injEq, Prod.mk.injEq] at h
            rw [← h.2]
            omega
          · have hE := ihE (skipWs r2)
            have hws2 := skipWs_length r2
            split
            · rename_i vs r3 hp2
              have := hE.1 vs r3 hp2
              refine ⟨fun v r h => ?_, fun _ => by simp⟩
              simp only [Except.ok.injEq, Prod.mk.injEq] at h
              rw [← h.2]
              omega
            · rename_i e hp2
              refine ⟨fun v r h => by simp at h, fun hf => ?_⟩
              have := hE.2 (by omega)
              intro he
              simp only [Except.error.injEq] at he
              rw [he] at hp2
              exact this hp2
          · exact ⟨fun v r h => by simp at h, fun _ => by simp⟩
    · rw [parseMembers_succ]
      cases s with
      | nil => exact ⟨fun v r h => by simp at h, fun _ => by simp⟩
      | cons q s1 =>
        simp only [List.length_cons]
        split_ifs
        · split
          · exact ⟨fun v r h => by simp at h, fun _ => by simp⟩
          · rename_i key r1 hp
            have h1 := parseChars_length s1.length s1 (le_refl _) key r1 hp
            have hws := skipWs_length r1
            split
            · exact ⟨fun v r h => by simp at h, fun _ => by simp⟩
            · rename_i c r2 hsk
              rw [hsk] at hws
              simp only [List.length_cons] at hws
              split_ifs
              · have hV := ihV (skipWs r2)
                have hws2 := skipWs_length r2
                split
                · rename_i e hp2
                  refine ⟨fun v r h => by simp at h, fun hf => ?_⟩
                  have := hV.2 (by omega)
                  intro he
                  simp only [Except.error.injEq] at he
                  rw [he] at hp2
                  exact this hp2
                · rename_i v2 r3 hp2
                  have h2 := hV.1 v2 r3 hp2
                  have hws3 := skipWs_length r3
                  split
                  · exact ⟨fun v r h => by simp at h, fun _ => by simp⟩
                  · rename_i c2 r4 hsk2
                    rw [hsk2] at hws3
                    simp only [List.length_cons] at hws3
                    split_ifs
                    · refine ⟨fun v r h => ?_, fun _ => by simp⟩
                      simp only [Except.ok.injEq, Prod.mk.injEq] at h
                      rw [← h.2]
                      omega
                    · have hM := ihM (skipWs r4)
                      have hws4 := skipWs_length r4
                      split
                      · rename_i ms r5 hp3
                        have := hM.1 ms r5 hp3
                        refine ⟨fun v r h => ?_, fun _ => by simp⟩
                        simp only [Except.ok.injEq, Prod.mk.injEq] at h
                        rw [← h.2]
                        omega
                      · rename_i e hp3
                        refine ⟨fun v r h => by simp at h, fun hf => ?_⟩
                        have := hM.2 (by omega)
                        intro he
                        simp only [Except.error.injEq] at he
                        rw [he] at hp3
                        exact this hp3
                    · exact ⟨fun v r h => by simp at h, fun _ => by simp⟩
              · exact ⟨fun v r h => by simp at h, fun _ => by simp⟩
        · exact ⟨fun v r h => by simp at h, fun _ => by simp⟩

/-- The parser of `JSON.parse` never stops for lack of recursion depth: every
error of `JSON.parse` is a `SyntaxError`. -/
theorem parse_ne_fuel (text : JsString) : JSON.parse text ≠ .error .fuel := by
  unfold JSON.parse
  have hws := skipWs_length text
  have h := ((parse_fuel_aux (2 * text.length + 2)).1 (skipWs text)).2 (by omega)
  split
  · rename_i e hp
    intro he
    simp only [Except.error.injEq] at he
    rw [he] at hp
    exact h hp
  · split_ifs
    · simp
    · simp

/-- In a reachable state with the timeout outstanding, the timeout fires
without throwing and only ends the loading phase: `todos` and the stored item
are as before. -/
theorem step_timer_reachable (stored : Option JsString) (es : List Event) (st : State)
    (h : run (mount stored) es = some st) (hp : st.timerPending = true) :
    step st .timer = some { st with isLoading := false, timerPending := false } := by
  have hinv := run_storage es (mount stored) st rfl h
  simp only [step, if_pos hp, timerCallback_of_storage st hinv]

/-- C2: for every value stored under `"todos"` when the component mounts,
absent or any string, and so for every one that does not parse as a list of
todos, the timeout callback of start-up throws nothing, sets `todos` to the
empty list and `isLoading` to false: the save effect of the mount has replaced
the item by `"[]"` before the callback reads it, and `savedTodos` is `[]`.
Whatever the user does before the timeout fires, the callback then still
throws nothing and sets `isLoading` to false, leaving `todos` as they are. -/
theorem startUp_loads_empty (stored : Option JsString) :
    (mount stored).storage = some (utf16 "[]") ∧
    savedTodos (mount stored).storage = .ok (.arr []) ∧
    startUp stored = .loaded ⟨[], [], "all", false, false, some (utf16 "[]"), false⟩ ∧
    (∀ e, startUp stored ≠ .threw e) ∧
    run (mount stored) [.timer] = some ⟨[], [], "all", false, false, some (utf16 "[]"), false⟩ ∧
    (∀ (es : List Event) (st : State), run (mount stored) es = some st →
      st.timerPending = true →
      timerCallback st = .loaded { st with isLoading := false, timerPending := false }) := by
  have h1 : startUp stored = .loaded ⟨[], [], "all", false, false, some (utf16 "[]"), false⟩ :=
    rfl
  refine ⟨rfl, rfl, h1, ?_, rfl, ?_⟩
  · intro e he
    rw [h1] at he
    simp at he
  · intro es st hrun _
    exact timerCallback_of_storage st (run_storage es (mount stored) st rfl hrun)

theorem startUp_loads_empty_witness :
    startUp (some (utf16 "\x7b"))
        = .loaded ⟨[], [], "all", false, false, some (utf16 "[]"), false⟩ ∧
      timerCallback ⟨[⟨5, utf16 "a", false⟩], [], "all", false, true,
          some (JSON.stringify [⟨5, utf16 "a", false⟩]), true⟩
        = .loaded ⟨[⟨5, utf16 "a", false⟩], [], "all", false, false,
          some (JSON.stringify [⟨5, utf16 "a", false⟩]), false⟩ :=
  ⟨(startUp_loads_empty (some (utf16 "\x7b"))).2.2.1,
    (startUp_loads_empty (some (utf16 "\x7b"))).2.2.2.2.2 [.setInput (utf16 "a"), .addTodo 5]
      ⟨[⟨5, utf16 "a", false⟩], [], "all", false, true,
        some (JSON.stringify [⟨5, utf16 "a", false⟩]), true⟩ (by decide) rfl⟩

end TodoList
